import Mathlib

/-!
Verification of the graph-memory and proactive-messaging core of the
personal-assistant agent (files `graph_memory.py`, `simple_agent.py`,
`config.py`).

Python dictionaries are modelled as ordered association lists with unique
keys: insertion of an existing key overwrites the value in place, insertion
of a fresh key appends at the end, exactly as CPython dicts behave.  The
NetworkX `DiGraph` is modelled as a node dictionary plus an edge dictionary
keyed by the (source, target) pair.  Calls to `datetime.now()` are made
explicit as timestamp parameters.  The LLM client is modelled as a function
returning `Except`, mirroring a call that either returns text or raises.
-/

/-- Attribute dictionaries: ordered association lists, string keys and
string values (the program only ever stores strings in them). -/
abbrev Attrs := List (String × String)

/-- Dictionary lookup: the value stored at the (unique) key, if present. -/
def getA : Attrs → String → Option String
  | [], _ => none
  | (k, v) :: rest, q => if k = q then some v else getA rest q

/-- Dictionary assignment `d[k] = v`: overwrite in place if the key is
present, append otherwise (CPython dict semantics). -/
def dictInsert : Attrs → String → String → Attrs
  | [], k, v => [(k, v)]
  | (k0, v0) :: rest, k, v =>
    if k0 = k then (k0, v) :: rest else (k0, v0) :: dictInsert rest k v

/-- `a.update(b)` on dictionaries: assign every pair of `b` into `a`. -/
def dictUpdate (a b : Attrs) : Attrs :=
  b.foldl (fun acc p => dictInsert acc p.1 p.2) a

/-- Removal of a key from a dictionary
(`{kk: vv for kk, vv in d.items() if kk != k}`). -/
def eraseKey : Attrs → String → Attrs
  | [], _ => []
  | (k0, v0) :: rest, k =>
    if k0 = k then eraseKey rest k else (k0, v0) :: eraseKey rest k

/-- The keys of a dictionary, in order. -/
def keysOf (a : Attrs) : List String := a.map Prod.fst

/-- A well-formed dictionary has pairwise distinct keys. -/
def keysNodup (a : Attrs) : Prop := (keysOf a).Nodup

/-- The knowledge graph: a directed graph as kept by NetworkX `DiGraph`,
i.e. a node dictionary (identifier to attribute dict) and an edge
dictionary keyed by the (source, target) pair. -/
structure Graph where
  nodes : List (String × Attrs)
  edges : List (String × String × Attrs)
deriving Repr, DecidableEq

/-- Node-dictionary upsert: update the attribute dict of an existing
identifier in place, or append a fresh entry (`G.add_node` semantics,
and the explicit has-node branch of `GraphMemory.add_entity`). -/
def upsertNode : List (String × Attrs) → String → Attrs → List (String × Attrs)
  | [], n, a => [(n, a)]
  | (m, b) :: rest, n, a =>
    if m = n then (m, dictUpdate b a) :: rest else (m, b) :: upsertNode rest n a

/-- Edge-dictionary upsert keyed by (source, target): `G.add_edge`
updates the attribute dict of an existing edge, or appends a fresh one. -/
def upsertEdge : List (String × String × Attrs) → String → String → Attrs →
    List (String × String × Attrs)
  | [], u, v, a => [(u, v, a)]
  | (x, y, b) :: rest, u, v, a =>
    if x = u ∧ y = v then (x, y, dictUpdate b a) :: rest
    else (x, y, b) :: upsertEdge rest u v a

/-- `n in graph` membership on the raw node dictionary. -/
def hasNodeL : List (String × Attrs) → String → Bool
  | [], _ => false
  | (m, _) :: rest, n => if m = n then true else hasNodeL rest n

/-- `graph.has_node`. -/
def Graph.hasNode (g : Graph) (n : String) : Bool := hasNodeL g.nodes n

/-- The attribute dict of a node in the raw node dictionary (empty if the
node is absent). -/
def nodeAttrsL : List (String × Attrs) → String → Attrs
  | [], _ => []
  | (m, b) :: rest, n => if m = n then b else nodeAttrsL rest n

/-- The attribute dict of a node of the graph. -/
def nodeAttrs (g : Graph) (n : String) : Attrs := nodeAttrsL g.nodes n

/-- Whether the directed edge `u -> v` is present in the raw edge list. -/
def hasEdgeL : List (String × String × Attrs) → String → String → Bool
  | [], _, _ => false
  | (x, y, _) :: rest, u, v => if x = u ∧ y = v then true else hasEdgeL rest u v

/-- Whether the directed edge `u -> v` is present. -/
def Graph.hasEdge (g : Graph) (u v : String) : Bool := hasEdgeL g.edges u v

/-- The node identifiers of the graph, in insertion order. -/
def nodeKeys (l : List (String × Attrs)) : List String := l.map Prod.fst

/-- How many nodes of the graph carry the identifier `n`. -/
def countNode (g : Graph) (n : String) : Nat := List.count n (nodeKeys g.nodes)

/-- NetworkX `G.add_edge(u, v, **a)`: auto-add missing endpoints (with empty
attribute dicts), then upsert the edge. -/
def addEdgeNX (g : Graph) (u v : String) (a : Attrs) : Graph :=
  { nodes := upsertNode (upsertNode g.nodes u []) v [],
    edges := upsertEdge g.edges u v a }

/-- `GraphMemory.add_entity` step 1: add `created_at = now` to the passed
attribute dict if the caller did not provide one. -/
def withCreatedAt (a : Attrs) (now : String) : Attrs :=
  match getA a "created_at" with
  | some _ => a
  | none => dictInsert a "created_at" now

/-- The attribute dict actually written by `GraphMemory.add_entity`:
the caller's attributes, with `created_at` stamped when absent and
`type` forced to the entity type. -/
def stampAttrs (attributes : Attrs) (now entity_type : String) : Attrs :=
  dictInsert (withCreatedAt attributes now) "type" entity_type

/-- `GraphMemory.add_entity(entity_name, entity_type, attributes)`:
stamp the attribute dict, then update the existing node in place or add a
fresh node.  `now` is the value of `datetime.now().isoformat()`. -/
def add_entity (g : Graph) (now : String) (entity_name entity_type : String)
    (attributes : Attrs) : Graph :=
  { g with nodes := upsertNode g.nodes entity_name (stampAttrs attributes now entity_type) }

/-- The endpoint-existence guard of `add_relationship`: if the entity is
absent it is auto-created as an `unknown`-typed entity. -/
def ensureNode (g : Graph) (now n : String) : Graph :=
  if g.hasNode n then g else add_entity g now n "unknown" []

/-- `GraphMemory.add_relationship(from_entity, to_entity, relation_type,
attributes)`: stamp `created_at` and `relation_type` on the edge
attributes, auto-create missing endpoints as `unknown` entities, then add
the edge. -/
def add_relationship (g : Graph) (now : String)
    (from_entity to_entity relation_type : String) (attributes : Attrs) : Graph :=
  addEdgeNX
    (ensureNode (ensureNode g now from_entity) now to_entity)
    from_entity to_entity
    (dictInsert (dictInsert attributes "created_at" now) "relation_type" relation_type)

/-- One call to `datetime.now()`, exposed through the three renderings the
source uses: `isoformat()`, `strftime('%Y%m%d_%H%M%S')` (second
granularity) and `strftime('%Y%m%d')` (day granularity). -/
structure Timestamp where
  iso : String
  key : String
  day : String
deriving Repr, DecidableEq

/-- The memory-node identifier generated by `add_memory_from_message`:
`f"memory_{datetime.now().strftime('%Y%m%d_%H%M%S')}"`. -/
def messageId (t : Timestamp) : String := "memory_" ++ t.key

/-- One entry of `extracted_info['entities']`. -/
structure EntitySpec where
  name : String
  type : String
  attributes : Attrs
deriving Repr, DecidableEq

/-- One entry of `extracted_info['relations']` (`from` is a Lean keyword,
hence the `rel_` prefixes). -/
structure RelSpec where
  rel_from : String
  rel_to : String
  rel_type : String
  attributes : Attrs
deriving Repr, DecidableEq

/-- The `extracted_info` dictionary passed to `add_memory_from_message`. -/
structure ExtractedInfo where
  keyword : String
  entities : List EntitySpec
  relations : List RelSpec
deriving Repr, DecidableEq

/-- `GraphMemory.add_memory_from_message(user_message, extracted_info)`:
add the message as a `memory` node keyed by second-granularity time,
connect it to the user root, add the extracted entities with `mentions`
(and `knows` for person-like entities) edges, then the extra relations. -/
def add_memory_from_message (g : Graph) (t : Timestamp) (user_message : String)
    (extracted_info : ExtractedInfo) : Graph :=
  let message_id := messageId t
  let g := add_entity g t.iso message_id "memory"
    [("content", user_message), ("keyword", extracted_info.keyword), ("timestamp", t.iso)]
  let g := add_relationship g t.iso "USER" message_id "has_memory" []
  let g := extracted_info.entities.foldl (fun g e =>
    let g := add_entity g t.iso e.name e.type e.attributes
    let g := add_relationship g t.iso message_id e.name "mentions" []
    if e.type = "person" ∨ e.type = "family" ∨ e.type = "friend" then
      add_relationship g t.iso "USER" e.name "knows" []
    else g) g
  extracted_info.relations.foldl (fun g r =>
    add_relationship g t.iso r.rel_from r.rel_to r.rel_type r.attributes) g

/-- `GraphMemory.__init__`: the empty graph holding only the `USER` root
node of type `user`. -/
def initGraph (now : String) : Graph :=
  { nodes := [("USER", [("type", "user"), ("created_at", now)])], edges := [] }

/-! ### Dictionary lemmas -/

theorem getA_dictInsert_self (a : Attrs) (k v : String) :
    getA (dictInsert a k v) k = some v := by
  induction a with
  | nil => simp [dictInsert, getA]
  | cons p rest ih =>
    obtain ⟨k0, v0⟩ := p
    by_cases h : k0 = k
    · simp [dictInsert, h, getA]
    · simp [dictInsert, h, getA, ih]

theorem getA_dictInsert_ne (a : Attrs) (k v q : String) (h : q ≠ k) :
    getA (dictInsert a k v) q = getA a q := by
  have h' : ¬k = q := fun hh => h hh.symm
  induction a with
  | nil => simp [dictInsert, getA, h']
  | cons p rest ih =>
    obtain ⟨k0, v0⟩ := p
    by_cases h0 : k0 = k
    · subst h0
      simp [dictInsert, getA, h']
    · by_cases hq : k0 = q
      · subst hq
        simp [dictInsert, h0, getA]
      · simp [dictInsert, h0, getA, hq, ih]

theorem getA_eq_none_iff (a : Attrs) (q : String) :
    getA a q = none ↔ q ∉ keysOf a := by
  induction a with
  | nil => simp [getA, keysOf]
  | cons p rest ih =>
    obtain ⟨k0, v0⟩ := p
    by_cases h : k0 = q
    · subst h
      simp [getA, keysOf]
    · have h' : ¬q = k0 := fun hh => h hh.symm
      simp [getA, h, keysOf, h'] at ih ⊢
      exact ih

theorem keysOf_dictInsert (a : Attrs) (k v : String) :
    keysOf (dictInsert a k v) = if k ∈ keysOf a then keysOf a else keysOf a ++ [k] := by
  induction a with
  | nil => simp [dictInsert, keysOf]
  | cons p rest ih =>
    obtain ⟨k0, v0⟩ := p
    by_cases h : k0 = k
    · subst h
      simp [dictInsert, keysOf]
    · have h' : ¬k = k0 := fun hh => h hh.symm
      simp only [dictInsert, if_neg h, keysOf, List.map_cons] at ih ⊢
      rw [ih]
      by_cases hm : k ∈ List.map Prod.fst rest
      · simp [hm, h']
      · simp [hm, h']

theorem keysNodup_dictInsert (a : Attrs) (k v : String) (h : keysNodup a) :
    keysNodup (dictInsert a k v) := by
  unfold keysNodup at h ⊢
  rw [keysOf_dictInsert]
  by_cases hm : k ∈ keysOf a
  · simpa [hm] using h
  · simp [hm, List.nodup_append, h]

theorem dictUpdate_nil (a : Attrs) : dictUpdate a [] = a := rfl

theorem getA_dictUpdate (a b : Attrs) (hb : keysNodup b) (q : String) :
    getA (dictUpdate a b) q =
      match getA b q with
      | some v => some v
      | none => getA a q := by
  induction b generalizing a with
  | nil => simp [dictUpdate, getA]
  | cons p rest ih =>
    obtain ⟨k0, v0⟩ := p
    have hb2 : (k0 :: List.map Prod.fst rest).Nodup := hb
    have hcons := List.nodup_cons.mp hb2
    have hb' : keysNodup rest := hcons.2
    have hk0 : k0 ∉ keysOf rest := hcons.1
    have hstep : dictUpdate a ((k0, v0) :: rest) = dictUpdate (dictInsert a k0 v0) rest := by
      simp [dictUpdate]
    rw [hstep, ih _ hb']
    by_cases hq : k0 = q
    · subst hq
      have hnone : getA rest k0 = none := (getA_eq_none_iff rest k0).mpr hk0
      simp [hnone, getA, getA_dictInsert_self]
    · have hne : q ≠ k0 := fun hh => hq hh.symm
      simp [getA, hq, getA_dictInsert_ne a k0 v0 q hne]

/-! ### Node-list lemmas -/

theorem hasNodeL_iff_mem (l : List (String × Attrs)) (n : String) :
    hasNodeL l n = true ↔ n ∈ nodeKeys l := by
  induction l with
  | nil => simp [hasNodeL, nodeKeys]
  | cons p rest ih =>
    obtain ⟨m, b⟩ := p
    by_cases h : m = n
    · subst h
      simp [hasNodeL, nodeKeys]
    · have h' : ¬n = m := fun hh => h hh.symm
      simp [hasNodeL, h, nodeKeys, h'] at ih ⊢
      exact ih

theorem nodeAttrsL_upsertNode_self (l : List (String × Attrs)) (n : String) (a : Attrs) :
    nodeAttrsL (upsertNode l n a) n =
      if hasNodeL l n then dictUpdate (nodeAttrsL l n) a else a := by
  induction l with
  | nil => simp [upsertNode, nodeAttrsL, hasNodeL]
  | cons p rest ih =>
    obtain ⟨m, b⟩ := p
    by_cases h : m = n
    · subst h
      simp [upsertNode, nodeAttrsL, hasNodeL]
    · simp [upsertNode, h, nodeAttrsL, hasNodeL, ih]

theorem nodeAttrsL_upsertNode_ne (l : List (String × Attrs)) (n : String) (a : Attrs)
    (m : String) (h : m ≠ n) :
    nodeAttrsL (upsertNode l n a) m = nodeAttrsL l m := by
  have h' : ¬n = m := fun hh => h hh.symm
  induction l with
  | nil => simp [upsertNode, nodeAttrsL, h']
  | cons p rest ih =>
    obtain ⟨x, b⟩ := p
    by_cases hx : x = n
    · subst hx
      simp [upsertNode, nodeAttrsL, h']
    · by_cases hm : x = m
      · subst hm
        simp [upsertNode, hx, nodeAttrsL]
      · simp [upsertNode, hx, nodeAttrsL, hm, ih]

theorem hasNodeL_upsertNode_self (l : List (String × Attrs)) (n : String) (a : Attrs) :
    hasNodeL (upsertNode l n a) n = true := by
  induction l with
  | nil => simp [upsertNode, hasNodeL]
  | cons p rest ih =>
    obtain ⟨m, b⟩ := p
    by_cases h : m = n
    · simp [upsertNode, h, hasNodeL]
    · simp [upsertNode, h, hasNodeL, ih]

theorem hasNodeL_upsertNode_ne (l : List (String × Attrs)) (n : String) (a : Attrs)
    (m : String) (h : m ≠ n) :
    hasNodeL (upsertNode l n a) m = hasNodeL l m := by
  have h' : ¬n = m := fun hh => h hh.symm
  induction l with
  | nil => simp [upsertNode, hasNodeL, h']
  | cons p rest ih =>
    obtain ⟨x, b⟩ := p
    by_cases hx : x = n
    · subst hx
      simp [upsertNode, hasNodeL, h']
    · by_cases hm : x = m
      · subst hm
        simp [upsertNode, hx, hasNodeL]
      · simp [upsertNode, hx, hasNodeL, hm, ih]

theorem hasNodeL_upsertNode_mono (l : List (String × Attrs)) (n : String) (a : Attrs)
    (m : String) (h : hasNodeL l m = true) :
    hasNodeL (upsertNode l n a) m = true := by
  by_cases hm : m = n
  · subst hm
    exact hasNodeL_upsertNode_self l m a
  · rw [hasNodeL_upsertNode_ne l n a m hm]
    exact h

theorem upsertNode_nil_of_hasNode (l : List (String × Attrs)) (n : String)
    (h : hasNodeL l n = true) : upsertNode l n [] = l := by
  induction l with
  | nil => simp [hasNodeL] at h
  | cons p rest ih =>
    obtain ⟨m, b⟩ := p
    by_cases hm : m = n
    · simp [upsertNode, hm, dictUpdate_nil]
    · simp [hasNodeL, hm] at h
      simp [upsertNode, hm, ih h]

theorem nodeKeys_upsertNode (l : List (String × Attrs)) (n : String) (a : Attrs) :
    nodeKeys (upsertNode l n a) =
      if hasNodeL l n then nodeKeys l else nodeKeys l ++ [n] := by
  induction l with
  | nil => simp [upsertNode, nodeKeys, hasNodeL]
  | cons p rest ih =>
    obtain ⟨m, b⟩ := p
    by_cases h : m = n
    · simp [upsertNode, h, nodeKeys, hasNodeL]
    · simp only [upsertNode, if_neg h, nodeKeys, List.map_cons, hasNodeL]
      simp only [nodeKeys] at ih
      rw [ih]
      by_cases hr : hasNodeL rest n
      · simp [hr, h]
      · simp [hr, h]

/-! ### Edge-list lemmas -/

theorem hasEdgeL_upsertEdge_self (l : List (String × String × Attrs)) (u v : String)
    (a : Attrs) : hasEdgeL (upsertEdge l u v a) u v = true := by
  induction l with
  | nil => simp [upsertEdge, hasEdgeL]
  | cons e rest ih =>
    obtain ⟨x, y, b⟩ := e
    by_cases h : x = u ∧ y = v
    · simp [upsertEdge, h, hasEdgeL]
    · simp [upsertEdge, h, hasEdgeL, ih]

theorem mem_upsertEdge (l : List (String × String × Attrs)) (u v : String) (a : Attrs)
    (e : String × String × Attrs) (he : e ∈ upsertEdge l u v a) :
    (e.1 = u ∧ e.2.1 = v) ∨ e ∈ l := by
  induction l with
  | nil =>
    simp [upsertEdge] at he
    subst he
    simp
  | cons f rest ih =>
    obtain ⟨x, y, b⟩ := f
    by_cases h : x = u ∧ y = v
    · simp [upsertEdge, h] at he
      rcases he with he | he
      · subst he
        exact Or.inl ⟨rfl, rfl⟩
      · exact Or.inr (List.mem_cons_of_mem _ he)
    · simp [upsertEdge, h] at he
      rcases he with he | he
      · subst he
        simp
      · rcases ih he with hl | hl
        · exact Or.inl hl
        · exact Or.inr (List.mem_cons_of_mem _ hl)

theorem nodeAttrsL_eq_nil_of_not_hasNode (l : List (String × Attrs)) (n : String)
    (h : hasNodeL l n = false) : nodeAttrsL l n = [] := by
  induction l with
  | nil => rfl
  | cons p rest ih =>
    obtain ⟨m, b⟩ := p
    by_cases hm : m = n
    · simp [hasNodeL, hm] at h
    · simp [hasNodeL, hm] at h
      simp [nodeAttrsL, hm, ih h]

/-! ### `add_entity` attribute lemmas -/

theorem keysNodup_stampAttrs (a : Attrs) (now ty : String) (h : keysNodup a) :
    keysNodup (stampAttrs a now ty) := by
  unfold stampAttrs withCreatedAt
  cases hca : getA a "created_at"
  · exact keysNodup_dictInsert _ _ _ (keysNodup_dictInsert _ _ _ h)
  · exact keysNodup_dictInsert _ _ _ h

theorem getA_stampAttrs_type (a : Attrs) (now ty : String) :
    getA (stampAttrs a now ty) "type" = some ty :=
  getA_dictInsert_self _ _ _

theorem getA_stampAttrs_ne (a : Attrs) (now ty k : String) (hk : k ≠ "type") :
    getA (stampAttrs a now ty) k =
      match getA a k with
      | some v => some v
      | none => if k = "created_at" then some now else none := by
  unfold stampAttrs
  rw [getA_dictInsert_ne _ _ _ _ hk]
  unfold withCreatedAt
  cases hca : getA a "created_at" with
  | none =>
    by_cases hkc : k = "created_at"
    · subst hkc
      simp [getA_dictInsert_self, hca]
    · rw [getA_dictInsert_ne _ _ _ _ hkc]
      cases hak : getA a k with
      | none => simp [hkc]
      | some v => simp
  | some w =>
    cases hak : getA a k with
    | some v => simp
    | none =>
      have hkc : k ≠ "created_at" := by
        intro hh
        rw [hh] at hak
        rw [hak] at hca
        cases hca
      simp [hkc]

theorem edges_add_entity (g : Graph) (now n ty : String) (a : Attrs) :
    (add_entity g now n ty a).edges = g.edges := rfl

theorem hasNode_add_entity_self (g : Graph) (now n ty : String) (a : Attrs) :
    (add_entity g now n ty a).hasNode n = true :=
  hasNodeL_upsertNode_self _ _ _

theorem hasNode_add_entity_mono (g : Graph) (now n ty : String) (a : Attrs)
    (m : String) (h : g.hasNode m = true) :
    (add_entity g now n ty a).hasNode m = true :=
  hasNodeL_upsertNode_mono _ _ _ _ h

theorem hasNode_add_entity_ne (g : Graph) (now n ty : String) (a : Attrs)
    (m : String) (h : m ≠ n) :
    (add_entity g now n ty a).hasNode m = g.hasNode m :=
  hasNodeL_upsertNode_ne _ _ _ _ h

theorem nodeAttrs_add_entity_ne (g : Graph) (now n ty : String) (a : Attrs)
    (m : String) (h : m ≠ n) :
    nodeAttrs (add_entity g now n ty a) m = nodeAttrs g m :=
  nodeAttrsL_upsertNode_ne _ _ _ _ h

theorem getA_add_entity_self (g : Graph) (now n ty : String) (a : Attrs)
    (ha : keysNodup a) (k : String) (hk : k ≠ "type") :
    getA (nodeAttrs (add_entity g now n ty a) n) k =
      match getA a k with
      | some v => some v
      | none => if k = "created_at" then some now else getA (nodeAttrs g n) k := by
  unfold add_entity nodeAttrs
  simp only []
  rw [nodeAttrsL_upsertNode_self]
  by_cases hn : hasNodeL g.nodes n
  · rw [if_pos hn, getA_dictUpdate _ _ (keysNodup_stampAttrs a now ty ha) k,
      getA_stampAttrs_ne a now ty k hk]
    cases hak : getA a k with
    | some v => simp
    | none =>
      by_cases hkc : k = "created_at"
      · simp [hkc]
      · simp [hkc]
  · rw [if_neg hn, getA_stampAttrs_ne a now ty k hk]
    have hnil : nodeAttrsL g.nodes n = [] :=
      nodeAttrsL_eq_nil_of_not_hasNode _ _ (by simpa using hn)
    cases hak : getA a k with
    | some v => simp
    | none =>
      by_cases hkc : k = "created_at"
      · simp [hkc]
      · simp [hkc, hnil, getA]

theorem getA_add_entity_type (g : Graph) (now n ty : String) (a : Attrs)
    (ha : keysNodup a) :
    getA (nodeAttrs (add_entity g now n ty a) n) "type" = some ty := by
  unfold add_entity nodeAttrs
  simp only []
  rw [nodeAttrsL_upsertNode_self]
  by_cases hn : hasNodeL g.nodes n
  · rw [if_pos hn, getA_dictUpdate _ _ (keysNodup_stampAttrs a now ty ha) "type",
      getA_stampAttrs_type]
  · rw [if_neg hn, getA_stampAttrs_type]

theorem nodeKeysNodup_add_entity (g : Graph) (now n ty : String) (a : Attrs)
    (h : (nodeKeys g.nodes).Nodup) :
    (nodeKeys (add_entity g now n ty a).nodes).Nodup := by
  unfold add_entity
  simp only []
  rw [nodeKeys_upsertNode]
  by_cases hn : hasNodeL g.nodes n
  · simpa [hn] using h
  · have hmem : n ∉ nodeKeys g.nodes := fun hm => by
      rw [(hasNodeL_iff_mem g.nodes n).mpr hm] at hn
      exact hn rfl
    simp [hn, List.nodup_append, h, hmem]

theorem countNode_eq_one (g : Graph) (n : String)
    (hnd : (nodeKeys g.nodes).Nodup) (hmem : g.hasNode n = true) :
    countNode g n = 1 :=
  List.count_eq_one_of_mem hnd ((hasNodeL_iff_mem _ _).mp hmem)

/-! ### `ensureNode` and edge-closure lemmas -/

theorem edges_ensureNode (g : Graph) (now n : String) :
    (ensureNode g now n).edges = g.edges := by
  unfold ensureNode
  split <;> rfl

theorem hasNode_ensureNode_self (g : Graph) (now n : String) :
    (ensureNode g now n).hasNode n = true := by
  unfold ensureNode
  split
  · assumption
  · exact hasNode_add_entity_self _ _ _ _ _

theorem hasNode_ensureNode_mono (g : Graph) (now n m : String)
    (h : g.hasNode m = true) : (ensureNode g now n).hasNode m = true := by
  unfold ensureNode
  split
  · exact h
  · exact hasNode_add_entity_mono _ _ _ _ _ _ h

theorem hasNode_addEdgeNX_mono (g : Graph) (u v : String) (a : Attrs)
    (m : String) (h : g.hasNode m = true) :
    (addEdgeNX g u v a).hasNode m = true := by
  unfold addEdgeNX Graph.hasNode
  exact hasNodeL_upsertNode_mono _ _ _ _ (hasNodeL_upsertNode_mono _ _ _ _ h)

theorem nodes_addEdgeNX_of_has (g : Graph) (u v : String) (a : Attrs)
    (hu : g.hasNode u = true) (hv : g.hasNode v = true) :
    (addEdgeNX g u v a).nodes = g.nodes := by
  unfold addEdgeNX
  simp only []
  rw [upsertNode_nil_of_hasNode _ _ hu, upsertNode_nil_of_hasNode _ _ hv]

/-- The no-dangling-edges invariant: both endpoints of every edge are
present as nodes of the graph. -/
def edgesClosed (g : Graph) : Prop :=
  ∀ e ∈ g.edges, g.hasNode e.1 = true ∧ g.hasNode e.2.1 = true

theorem edgesClosed_initGraph (now : String) : edgesClosed (initGraph now) := by
  intro e he
  simp [initGraph] at he

theorem edgesClosed_add_entity (g : Graph) (now n ty : String) (a : Attrs)
    (h : edgesClosed g) : edgesClosed (add_entity g now n ty a) := by
  intro e he
  rw [edges_add_entity] at he
  obtain ⟨h1, h2⟩ := h e he
  exact ⟨hasNode_add_entity_mono _ _ _ _ _ _ h1, hasNode_add_entity_mono _ _ _ _ _ _ h2⟩

theorem edgesClosed_ensureNode (g : Graph) (now n : String)
    (h : edgesClosed g) : edgesClosed (ensureNode g now n) := by
  unfold ensureNode
  split
  · exact h
  · exact edgesClosed_add_entity _ _ _ _ _ h

theorem edgesClosed_addEdgeNX (g : Graph) (u v : String) (a : Attrs)
    (h : edgesClosed g) : edgesClosed (addEdgeNX g u v a) := by
  intro e he
  have hmem := mem_upsertEdge g.edges u v a e he
  rcases hmem with huv | hold
  · constructor
    · rw [huv.1]
      unfold addEdgeNX Graph.hasNode
      exact hasNodeL_upsertNode_mono _ _ _ _ (hasNodeL_upsertNode_self _ _ _)
    · rw [huv.2]
      unfold addEdgeNX Graph.hasNode
      exact hasNodeL_upsertNode_self _ _ _
  · obtain ⟨h1, h2⟩ := h e hold
    exact ⟨hasNode_addEdgeNX_mono _ _ _ _ _ h1, hasNode_addEdgeNX_mono _ _ _ _ _ h2⟩

theorem edgesClosed_add_relationship (g : Graph) (now u v r : String) (a : Attrs)
    (h : edgesClosed g) : edgesClosed (add_relationship g now u v r a) :=
  edgesClosed_addEdgeNX _ _ _ _
    (edgesClosed_ensureNode _ _ _ (edgesClosed_ensureNode _ _ _ h))

theorem edgesClosed_foldl {β : Type} (f : Graph → β → Graph)
    (hf : ∀ g x, edgesClosed g → edgesClosed (f g x)) (l : List β) :
    ∀ g, edgesClosed g → edgesClosed (List.foldl f g l) := by
  induction l with
  | nil => intro g h; simpa using h
  | cons x rest ih =>
    intro g h
    simp only [List.foldl_cons]
    exact ih _ (hf _ _ h)

theorem edgesClosed_add_memory_from_message (g : Graph) (t : Timestamp)
    (msg : String) (info : ExtractedInfo) (h : edgesClosed g) :
    edgesClosed (add_memory_from_message g t msg info) := by
  unfold add_memory_from_message
  apply edgesClosed_foldl
  · intro g0 r h0
    exact edgesClosed_add_relationship _ _ _ _ _ _ h0
  · apply edgesClosed_foldl
    · intro g0 e h0
      dsimp only
      split
      · exact edgesClosed_add_relationship _ _ _ _ _ _
          (edgesClosed_add_relationship _ _ _ _ _ _
            (edgesClosed_add_entity _ _ _ _ _ h0))
      · exact edgesClosed_add_relationship _ _ _ _ _ _
          (edgesClosed_add_entity _ _ _ _ _ h0)
    · exact edgesClosed_add_relationship _ _ _ _ _ _
        (edgesClosed_add_entity _ _ _ _ _ h)

/-! ### String utilities (models of the Python string operations) -/

/-- `str.lower()`, character-wise. -/
def lowerS (s : String) : String := ⟨s.data.map Char.toLower⟩

/-- Needle-is-prefix test on character lists. -/
def prefCheck : List Char → List Char → Bool
  | [], _ => true
  | _ :: _, [] => false
  | a :: as, b :: bs => decide (a = b) && prefCheck as bs

/-- Needle-occurs-somewhere test on character lists. -/
def subCheck : List Char → List Char → Bool
  | n, [] => n.isEmpty
  | n, c :: t => prefCheck n (c :: t) || subCheck n t

/-- Python substring containment `needle in hay`. -/
def strContains (hay needle : String) : Bool := subCheck needle.data hay.data

/-- Python `str.split()` with no argument: split on whitespace runs,
dropping empty pieces. -/
def pySplit (s : String) : List String :=
  ((List.splitOnP (fun c => c.isWhitespace) s.data).filter (fun l => !l.isEmpty)).map
    (fun l => ⟨l⟩)

/-- Python `sep.join(parts)`. -/
def pyJoin (sep : String) : List String → String
  | [] => ""
  | [x] => x
  | x :: y :: t => x ++ sep ++ pyJoin sep (y :: t)

/-- Python slicing `list[-n:]`. -/
def pyTakeLast {α : Type} (n : Nat) (l : List α) : List α := l.drop (l.length - n)

/-- Python `str.strip()`: drop whitespace from both ends. -/
def pyStrip (s : String) : String :=
  ⟨((s.data.dropWhile Char.isWhitespace).reverse.dropWhile Char.isWhitespace).reverse⟩

/-! ### Retrieval: `get_context_for_query` -/

/-- The match test of `get_context_for_query`: some whitespace token of the
lower-cased query occurs inside the memory's lower-cased content or
lower-cased keyword. -/
def memMatchesB (query_lower : String) (data : Attrs) : Bool :=
  (pySplit query_lower).any (fun word =>
    strContains (lowerS ((getA data "content").getD "")) word ||
    strContains (lowerS ((getA data "keyword").getD "")) word)

/-- The record appended to `relevant_memories` for a matching node:
original-case content, keyword and timestamp. -/
def memProj (data : Attrs) : String × String × String :=
  ((getA data "content").getD "", (getA data "keyword").getD "",
    (getA data "timestamp").getD "")

/-- The scan loop of `get_context_for_query`: walk the node dictionary in
iteration order and keep every `memory`-typed node whose content or
keyword matches some query token. -/
def scanMemories (query_lower : String) :
    List (String × Attrs) → List (String × String × String)
  | [] => []
  | (_, data) :: rest =>
    if getA data "type" = some "memory" then
      if memMatchesB query_lower data then
        memProj data :: scanMemories query_lower rest
      else scanMemories query_lower rest
    else scanMemories query_lower rest

/-- The numbered context lines, `enumerate(relevant_memories, 1)`. -/
def formatLines (i : Nat) : List (String × String × String) → List String
  | [] => []
  | (content, keyword, ts) :: rest =>
    (toString i ++ ". [" ++ keyword ++ "] " ++ content ++ " (at " ++ ts ++ ")")
      :: formatLines (i + 1) rest

/-- `GraphMemory.get_context_for_query(query_text, top_k)`: lower-case the
query, scan all memory nodes for token matches, truncate to `top_k`, and
either return the sentinel or the formatted numbered list. -/
def get_context_for_query (g : Graph) (query_text : String) (top_k : Nat) : String :=
  let query_lower := lowerS query_text
  let relevant_memories := (scanMemories query_lower g.nodes).take top_k
  if relevant_memories.isEmpty then "No previous context found."
  else pyJoin "\n" ("RELEVANT MEMORIES:" :: formatLines 1 relevant_memories)

/-! ### Export / import (node-link representation) -/

/-- The node-link JSON document of `nx.node_link_data`: metadata flags plus
one dict per node (attributes with `id` assigned) and one dict per edge
(attributes with `source` and `target` assigned).  File writing/parsing
(`json.dump`/`json.load`) is the identity on this representation. -/
structure NodeLinkData where
  directed : Bool
  multigraph : Bool
  nodes : List Attrs
  links : List Attrs
deriving Repr, DecidableEq

/-- `GraphMemory.export_graph`: produce the node-link document. -/
def export_graph (g : Graph) : NodeLinkData :=
  { directed := true, multigraph := false,
    nodes := g.nodes.map (fun p => dictInsert p.2 "id" p.1),
    links := g.edges.map (fun e =>
      dictInsert (dictInsert e.2.2 "source" e.1) "target" e.2.1) }

/-- `GraphMemory.import_graph`: rebuild the graph from a node-link document
with `nx.node_link_graph` and replace the in-memory graph wholesale (the
previous graph is discarded). -/
def import_graph (_previous : Graph) (d : NodeLinkData) : Graph :=
  { nodes := d.nodes.map (fun a => ((getA a "id").getD "", eraseKey a "id")),
    edges := d.links.map (fun a =>
      ((getA a "source").getD "", (getA a "target").getD "",
        eraseKey (eraseKey a "source") "target")) }

/-! ### Agent configuration (`config.py`) -/

/-- `config.FOLLOW_UP_DELAY_MINUTES`. -/
def FOLLOW_UP_DELAY_MINUTES : Int := 1

/-- `config.GENERAL_CHECKIN_MINUTES`. -/
def GENERAL_CHECKIN_MINUTES : Int := 2

/-- `config.MEMORY_FOLLOWUP_MINUTES`. -/
def MEMORY_FOLLOWUP_MINUTES : Int := 1

/-- `config.MAX_CONVERSATION_CONTEXT`. -/
def MAX_CONVERSATION_CONTEXT : Nat := 6

/-- `config.IMPORTANT_KEYWORDS`, in configured order. -/
def IMPORTANT_KEYWORDS : List String :=
  ["meeting", "appointment", "interview", "date", "deadline", "exam", "test",
   "presentation",
   "friend", "family", "mom", "dad", "sister", "brother", "boyfriend",
   "girlfriend", "partner",
   "stressed", "worried", "excited", "nervous", "happy", "sad", "anxious",
   "tired", "overwhelmed",
   "job", "work", "school", "vacation", "trip", "birthday", "anniversary",
   "graduation",
   "doctor", "sick", "medicine", "exercise", "diet", "sleep", "therapy"]

/-- Timing configuration is in minutes; agent clocks are modelled in
seconds (`timedelta(minutes=m)` equals `m * 60` seconds). -/
def minutesToSeconds (m : Int) : Int := m * 60

/-! ### Agent state and operations (`simple_agent.py`) -/

/-- One entry of `SimpleAgent.important_memories`: clock instants are in
seconds. -/
structure MemoryItem where
  content : String
  keyword : String
  timestamp : Int
  follow_up_needed : Bool
  follow_up_after : Int
deriving Repr, DecidableEq

/-- One entry of `SimpleAgent.conversation_history`. -/
structure Turn where
  sender : String
  message : String
deriving Repr, DecidableEq

/-- One chat message of an LLM request. -/
structure Msg where
  role : String
  content : String
deriving Repr, DecidableEq

/-- The memory dict appended by `extract_important_info` on a keyword hit. -/
def mkMemoryItem (user_message keyword : String) (now : Int) : MemoryItem :=
  { content := user_message, keyword := keyword, timestamp := now,
    follow_up_needed := true,
    follow_up_after := now + minutesToSeconds MEMORY_FOLLOWUP_MINUTES }

/-- Whether the first character of a token is upper case
(`word[0].isupper()` guarded by `word and`). -/
def headIsUpper (w : String) : Bool :=
  match w.data with
  | [] => false
  | c :: _ => c.isUpper

/-- The capitalised-word heuristic of `_add_to_graph_memory`: non-empty,
upper-case initial, and not a stopword. -/
def properNoun (w : String) : Bool :=
  !w.isEmpty && headIsUpper w && !(decide (lowerS w ∈ ["i", "the", "a", "an"]))

/-- `SimpleAgent._add_to_graph_memory(user_message, keyword)`: build the
keyword-category entity/relation extraction and hand it to
`add_memory_from_message`. -/
def add_to_graph_memory (g : Graph) (t : Timestamp)
    (user_message keyword : String) : Graph :=
  let entities : List EntitySpec :=
    if keyword ∈ ["friend", "family", "mom", "dad", "sister", "brother"] then
      ((pySplit user_message).filter properNoun).map (fun w =>
        { name := w, type := "person", attributes := [("relation", keyword)] })
    else if keyword ∈ ["meeting", "interview", "exam", "presentation", "appointment"] then
      [{ name := keyword ++ "_" ++ t.day, type := "event",
         attributes := [("event_type", keyword), ("description", user_message)] }]
    else if keyword ∈ ["stressed", "worried", "excited", "nervous", "happy", "sad", "anxious"] then
      [{ name := keyword, type := "emotion", attributes := [("context", user_message)] }]
    else if keyword ∈ ["job", "work", "school"] then
      [{ name := keyword, type := "topic", attributes := [("context", user_message)] }]
    else []
  let relations : List RelSpec :=
    if keyword ∈ ["stressed", "worried", "excited", "nervous", "happy", "sad", "anxious"] then
      [{ rel_from := "USER", rel_to := keyword, rel_type := "feels", attributes := [] }]
    else []
  add_memory_from_message g t user_message
    { keyword := keyword, entities := entities, relations := relations }

/-- `SimpleAgent.extract_important_info(user_message)`: the
`for keyword in important_keywords: if keyword in message_lower: ... break`
scan takes the first configured keyword occurring as a substring of the
lower-cased message; on a hit, a follow-up memory item is appended and the
graph extended, otherwise nothing changes. -/
def extract_important_info (mems : List MemoryItem) (g : Graph) (now : Int)
    (t : Timestamp) (user_message : String) : List MemoryItem × Graph :=
  match IMPORTANT_KEYWORDS.find? (fun k => strContains (lowerS user_message) k) with
  | some keyword =>
    (mems ++ [mkMemoryItem user_message keyword now],
      add_to_graph_memory g t user_message keyword)
  | none => (mems, g)

/-- The due test used by the proactive code paths:
`memory.get('follow_up_needed') and now >= memory.get('follow_up_after')`. -/
def isDueMemory (now : Int) (m : MemoryItem) : Bool :=
  m.follow_up_needed && decide (m.follow_up_after ≤ now)

/-- `SimpleAgent.should_send_proactive_message`: once elapsed time exceeds
the general check-in threshold the scan of the follow-up queue only picks
the log message, both branches return `True`; below the threshold the
answer is `False`. -/
def should_send_proactive_message (now last_interaction : Int)
    (important_memories : List MemoryItem) : Bool :=
  let time_since := now - last_interaction
  if time_since > minutesToSeconds GENERAL_CHECKIN_MINUTES then
    match important_memories.find? (fun m => isDueMemory now m) with
    | some _ => true
    | none => true
  else false

/-- One collected follow-up context entry of `generate_proactive_message`. -/
structure FollowCtx where
  keyword : String
  content : String
  timestamp : String
deriving Repr, DecidableEq

/-- Rendering of `memory['timestamp'].strftime('%Y-%m-%d %H:%M:%S')`; the
instant is rendered decimally, the exact text is opaque to every claim. -/
def fmtTime (t : Int) : String := toString t

/-- The marking loop at the top of `generate_proactive_message`: walk the
queue in order, collect every due entry into the follow-up context and
clear its `follow_up_needed` flag. -/
def markFollowUps (now : Int) : List MemoryItem → List MemoryItem × List FollowCtx
  | [] => ([], [])
  | m :: rest =>
    let r := markFollowUps now rest
    if isDueMemory now m then
      ({ m with follow_up_needed := false } :: r.1,
        { keyword := m.keyword, content := m.content,
          timestamp := fmtTime m.timestamp } :: r.2)
    else (m :: r.1, r.2)

/-- `SimpleAgent.get_system_prompt`, abbreviated to its opening sentence;
its text takes no part in any verified property. -/
def get_system_prompt : String :=
  "You are Emma, a highly empathetic and emotionally intelligent AI assistant. You genuinely care about the user\x27s wellbeing and remember details about their life."

/-- The fixed text of the follow-up prompt before the interpolated
follow-up list. -/
def followUpTaskHead : String :=
  "PROACTIVE MESSAGE TASK:\nThe user mentioned something important that you should follow up on. Generate a warm, caring check-in message asking how things went.\n\nWHAT THEY MENTIONED:\n"

/-- The fixed text of the follow-up prompt after the interpolated follow-up
list (example list abbreviated; its text takes no part in any verified
property). -/
def followUpTaskTail : String :=
  "\n\nEXAMPLES OF GOOD FOLLOW-UP MESSAGES:\n- If they mentioned \"meeting with my friend Sarah\": \"Hey! How did the meeting with Sarah go?\"\n- If they mentioned \"job interview tomorrow\": \"I hope your interview went amazingly! I\x27m excited to hear how it turned out!\"\n\nGenerate a short (1-2 sentences), friendly proactive message checking in on what they specifically mentioned. Reference specific details (names, events) from their message. Be warm and show you genuinely care. Use emojis naturally."

/-- One line of the interpolated follow-up list:
`f"- [{keyword}] {content} (mentioned at {timestamp})"`. -/
def followUpLine (c : FollowCtx) : String :=
  "- [" ++ c.keyword ++ "] " ++ c.content ++ " (mentioned at " ++ c.timestamp ++ ")"

/-- The general check-in prompt of `generate_proactive_message`
(instruction text abbreviated around the interpolations). -/
def generalCheckinPrompt (minutes_since : Int) (recent_context : String) : String :=
  "PROACTIVE MESSAGE TASK:\nIt\x27s been " ++ toString minutes_since ++
  " minutes since you last talked to the user. Generate a warm, caring check-in message to see how they\x27re doing.\n\nRECENT CONVERSATION CONTEXT:\n" ++
  (if recent_context = "" then "No recent conversation" else recent_context) ++
  "\n\nGenerate a short (1-2 sentences), friendly proactive message. Reference the conversation context if relevant, but keep it natural and not forced. Be warm, caring, and natural. Use emojis. Make it feel like a friend checking in, not a bot."

/-- The message list sent to the LLM by `generate_proactive_message`:
system prompt, then the follow-up task (when due entries were collected)
or the general check-in task, then the fixed trigger user message. -/
def buildProactiveMessages (now last_interaction : Int) (history : List Turn)
    (ctxs : List FollowCtx) : List Msg :=
  let task : Msg :=
    if ctxs.isEmpty then
      { role := "system",
        content := generalCheckinPrompt ((now - last_interaction) / 60)
          (pyJoin "\n" ((pyTakeLast 4 history).map
            (fun m => m.sender ++ ": " ++ m.message))) }
    else
      { role := "system",
        content := followUpTaskHead ++ pyJoin "\n" (ctxs.map followUpLine)
          ++ followUpTaskTail }
  [{ role := "system", content := get_system_prompt }, task,
   { role := "user", content := "Generate the proactive message now." }]

/-- The full generation request issued by `generate_proactive_message` at
instant `now`. -/
def proactiveRequest (now last_interaction : Int) (history : List Turn)
    (important_memories : List MemoryItem) : List Msg :=
  buildProactiveMessages now last_interaction history
    (markFollowUps now important_memories).2

/-- The canned per-keyword fallback templates of
`generate_proactive_message`. -/
def fallback_templates : List (String × String) :=
  [("meeting", "Hey! I\x27ve been thinking about your meeting. How did it go? 😊"),
   ("interview", "I hope your interview went amazingly! I\x27m excited to hear how it went! ✨"),
   ("exam", "How are you feeling after your exam? I hope it went better than expected! 📚"),
   ("stressed", "I\x27ve been thinking about you since you mentioned feeling stressed. How are you doing now? 💙"),
   ("worried", "Just wanted to check in - you seemed worried earlier. How are things going? I\x27m here if you need to talk 🤗"),
   ("excited", "I loved hearing your excitement earlier! How are things going with what you mentioned? 🎉")]

/-- `fallback_templates.get(keyword, default)`. -/
def lookupD (l : List (String × String)) (k d : String) : String :=
  match getA l k with
  | some v => v
  | none => d

/-- The default of the per-keyword template lookup. -/
def followUpFallbackDefault : String :=
  "Just thinking about our conversation earlier. How are you doing? 😊"

/-- The generic check-in fallback pool (`random.choice`). -/
def fallback_messages : List String :=
  ["Hope you\x27re having a wonderful day! What\x27s on your mind? 😊",
   "Just wanted to check in and see how you\x27re doing 💙",
   "Thinking about you! How has your day been treating you? ✨",
   "Hey there! I was wondering how you\x27re feeling today 🤗"]

/-- `SimpleAgent.generate_proactive_message`: mark due follow-ups, build
the prompt, call the LLM; on any raised error fall back to the canned
template for the first due keyword, or to one of the generic check-ins
(`random.choice` modelled by an arbitrary index).  Returns the updated
queue and the message. -/
def generate_proactive_message (client : List Msg → Except String String)
    (randIdx : Nat) (now last_interaction : Int) (history : List Turn)
    (important_memories : List MemoryItem) : List MemoryItem × String :=
  match client (buildProactiveMessages now last_interaction history
      (markFollowUps now important_memories).2) with
  | .ok r => ((markFollowUps now important_memories).1, pyStrip r)
  | .error _ =>
    match (markFollowUps now important_memories).2 with
    | c :: _ =>
      ((markFollowUps now important_memories).1,
        lookupD fallback_templates c.keyword followUpFallbackDefault)
    | [] =>
      ((markFollowUps now important_memories).1,
        fallback_messages.getD (randIdx % fallback_messages.length) "")

/-- The message list built by `generate_llm_response` (and its streaming
twin): system prompt, optional graph-memory context, the recent
conversation window, then the current message. -/
def buildResponseMessages (g : Graph) (history : List Turn)
    (user_message : String) : List Msg :=
  let graph_context := get_context_for_query g user_message 3
  let base := [{ role := "system", content := get_system_prompt : Msg }]
  let base :=
    if graph_context ≠ "" ∧ graph_context ≠ "No previous context found." then
      base ++
        [{ role := "system",
           content := "Here\x27s what I remember that might be relevant:\n" ++ graph_context }]
    else base
  (base ++ (pyTakeLast (MAX_CONVERSATION_CONTEXT * 2) history).map (fun m =>
    { role := if m.sender = "user" then "user" else "assistant",
      content := m.message }))
    ++ [{ role := "user", content := user_message }]

/-- The fixed empathetic fallback of `generate_llm_response`. -/
def llmFallback : String :=
  "I\x27m having trouble connecting right now, but I want you to know I\x27m here for you 💙 Could you tell me more about what\x27s on your mind?"

/-- `SimpleAgent.generate_llm_response`: call the LLM on the built message
list; any raised error is swallowed and the fixed fallback returned. -/
def generate_llm_response (client : List Msg → Except String String)
    (g : Graph) (history : List Turn) (user_message : String) : String :=
  match client (buildResponseMessages g history user_message) with
  | .ok r => pyStrip r
  | .error _ => llmFallback

/-! ### Substring lemmas -/

theorem prefCheck_self_append (n c : List Char) : prefCheck n (n ++ c) = true := by
  induction n with
  | nil => simp [prefCheck]
  | cons a as ih => simp [prefCheck, ih]

theorem subCheck_nil_needle (l : List Char) : subCheck [] l = true := by
  cases l <;> simp [subCheck, prefCheck]

theorem subCheck_append_self (n pre post : List Char) :
    subCheck n (pre ++ n ++ post) = true := by
  induction pre with
  | nil =>
    cases n with
    | nil => simpa using subCheck_nil_needle post
    | cons a as =>
      have h := prefCheck_self_append (a :: as) post
      simp only [List.nil_append, subCheck, Bool.or_eq_true]
      exact Or.inl h
  | cons p ps ih =>
    simp only [List.cons_append, subCheck, Bool.or_eq_true]
    exact Or.inr ih

theorem strContains_sandwich (a b c : String) : strContains (a ++ b ++ c) b = true := by
  unfold strContains
  have h : (a ++ b ++ c).data = a.data ++ b.data ++ c.data := by
    rw [String.data_append, String.data_append]
  rw [h]
  exact subCheck_append_self b.data a.data c.data

/-! ### Simple agent lemmas -/

theorem should_send_eq_decide (now last_interaction : Int) (mems : List MemoryItem) :
    should_send_proactive_message now last_interaction mems =
      decide (now - last_interaction > minutesToSeconds GENERAL_CHECKIN_MINUTES) := by
  unfold should_send_proactive_message
  by_cases h : now - last_interaction > minutesToSeconds GENERAL_CHECKIN_MINUTES
  · simp only [if_pos h, decide_eq_true h]
    cases List.find? (fun m => isDueMemory now m) mems <;> rfl
  · simp [h]

theorem lookupD_mem_or_default (l : List (String × String)) (k d : String) :
    lookupD l k d ∈ l.map Prod.snd ∨ lookupD l k d = d := by
  induction l with
  | nil => exact Or.inr rfl
  | cons p rest ih =>
    obtain ⟨k0, v0⟩ := p
    by_cases h : k0 = k
    · simp [lookupD, getA, h]
    · rcases ih with hm | hd
      · exact Or.inl (by simp [lookupD, getA, h] at hm ⊢; exact Or.inr hm)
      · simp [lookupD, getA, h] at hd ⊢
        exact Or.inr hd

/-! ### Claims C4, C10, C9, C5, C6, C1, C2 -/

/-- Claim C4: `should_send_proactive_message` (the spec's `should_notify`)
returns true iff the elapsed time since the last interaction strictly
exceeds the `GENERAL_CHECKIN_MINUTES` threshold; once the threshold is
crossed it returns true whatever the follow-up queue holds, and at or
below the threshold it returns false whatever the queue holds. -/
theorem c4_proactive_gate (now last_interaction : Int)
    (important_memories : List MemoryItem) :
    (should_send_proactive_message now last_interaction important_memories = true ↔
      now - last_interaction > minutesToSeconds GENERAL_CHECKIN_MINUTES) ∧
    ∀ other : List MemoryItem,
      should_send_proactive_message now last_interaction important_memories =
        should_send_proactive_message now last_interaction other := by
  constructor
  · rw [should_send_eq_decide]
    exact decide_eq_true_iff
  · intro other
    rw [should_send_eq_decide, should_send_eq_decide]

/-- Claim C10: trigger detection in `extract_important_info` is substring
containment of a configured keyword in the lower-cased message — a memory
and follow-up item are created exactly when some keyword matches, and the
recorded keyword is the first matching one in `IMPORTANT_KEYWORDS` order
(so e.g. `date` fires inside `update`). -/
theorem c10_keyword_trigger (mems : List MemoryItem) (g : Graph) (now : Int)
    (t : Timestamp) (user_message : String) :
    (extract_important_info mems g now t user_message = (mems, g) ↔
      ∀ k ∈ IMPORTANT_KEYWORDS, strContains (lowerS user_message) k = false) ∧
    (∀ kf, IMPORTANT_KEYWORDS.find?
        (fun k => strContains (lowerS user_message) k) = some kf →
      (extract_important_info mems g now t user_message).1 =
        mems ++ [mkMemoryItem user_message kf now] ∧
      (extract_important_info mems g now t user_message).2 =
        add_to_graph_memory g t user_message kf) ∧
    (∀ kf, IMPORTANT_KEYWORDS.find?
        (fun k => strContains (lowerS user_message) k) = some kf ↔
      (strContains (lowerS user_message) kf = true ∧
        ∃ l1 l2, IMPORTANT_KEYWORDS = l1 ++ kf :: l2 ∧
          ∀ k ∈ l1, strContains (lowerS user_message) k = false)) := by
  refine ⟨?_, ?_, ?_⟩
  · cases hfind : IMPORTANT_KEYWORDS.find?
        (fun k => strContains (lowerS user_message) k) with
    | none =>
      simp only [extract_important_info, hfind]
      constructor
      · intro _ k hk
        have := List.find?_eq_none.mp hfind k hk
        simpa using this
      · intro _
        trivial
    | some kf =>
      simp only [extract_important_info, hfind]
      constructor
      · intro h
        have h2 := congrArg Prod.fst h
        simp at h2
      · intro hall
        have hmem : kf ∈ IMPORTANT_KEYWORDS := List.mem_of_find?_eq_some hfind
        have htrue : strContains (lowerS user_message) kf = true :=
          List.find?_some hfind
        rw [hall kf hmem] at htrue
        cases htrue
  · intro kf hfind
    simp [extract_important_info, hfind]
  · intro kf
    rw [List.find?_eq_some]
    constructor
    · rintro ⟨hp, as, bs, hsplit, hall⟩
      exact ⟨hp, as, bs, hsplit, fun k hk => by simpa using hall k hk⟩
    · rintro ⟨hp, as, bs, hsplit, hall⟩
      exact ⟨hp, as, bs, hsplit, fun k hk => by simpa using hall k hk⟩

/-- Witness for C10: the message `Will update you later` contains no
keyword as a whole word, yet `date` occurs inside `update` and is
recorded. -/
theorem c10_witness :
    (extract_important_info [] (initGraph "T0") 100 ⟨"i", "k", "d"⟩
      "Will update you later").1 =
      [mkMemoryItem "Will update you later" "date" 100] := by
  have h := (c10_keyword_trigger [] (initGraph "T0") 100 ⟨"i", "k", "d"⟩
    "Will update you later").2.1 "date" (by decide)
  simpa using h.1

/-- Claim C9: a failing generation call never escapes -
`generate_llm_response` returns the fixed empathetic fallback and
`generate_proactive_message` returns a canned template (keyed by the first
due keyword) or a generic check-in; all of them non-empty strings. -/
theorem c9_generation_fallback (rc pc : List Msg → Except String String)
    (g : Graph) (history : List Turn) (user_message : String)
    (e1 e2 : String) (randIdx : Nat) (now last_interaction : Int)
    (important_memories : List MemoryItem)
    (h1 : rc (buildResponseMessages g history user_message) = .error e1)
    (h2 : pc (proactiveRequest now last_interaction history important_memories) =
      .error e2) :
    generate_llm_response rc g history user_message = llmFallback ∧
    llmFallback ≠ "" ∧
    (generate_proactive_message pc randIdx now last_interaction history
      important_memories).2 ≠ "" := by
  refine ⟨?_, by decide, ?_⟩
  · unfold generate_llm_response
    rw [h1]
  · have h2' : pc (buildProactiveMessages now last_interaction history
        (markFollowUps now important_memories).2) = .error e2 := h2
    unfold generate_proactive_message
    rw [h2']
    cases hm : (markFollowUps now important_memories).2 with
    | nil =>
      simp only [hm]
      have h4 : fallback_messages.length = 4 := rfl
      rw [h4]
      have hr : randIdx % 4 = 0 ∨ randIdx % 4 = 1 ∨ randIdx % 4 = 2 ∨
          randIdx % 4 = 3 := by omega
      rcases hr with h | h | h | h <;> rw [h] <;> decide
    | cons c rest =>
      simp only [hm]
      rcases lookupD_mem_or_default fallback_templates c.keyword
          followUpFallbackDefault with hmem | hd
      · have hall : ∀ s ∈ fallback_templates.map Prod.snd, s ≠ "" := by decide
        exact hall _ hmem
      · rw [hd]
        decide

/-- Witness for C9: a client that always raises yields the fallbacks. -/
theorem c9_witness :
    generate_llm_response (fun _ => .error "boom") (initGraph "T0") [] "hello" =
      llmFallback ∧
    llmFallback ≠ "" ∧
    (generate_proactive_message (fun _ => .error "boom") 0 200 0 []
      [⟨"my meeting", "meeting", 0, true, 50⟩]).2 ≠ "" :=
  c9_generation_fallback (fun _ => .error "boom") (fun _ => .error "boom")
    (initGraph "T0") [] "hello" "boom" "boom" 0 200 0
    [⟨"my meeting", "meeting", 0, true, 50⟩] rfl rfl

/-- Counterexample to C5 as stated: re-upserting an existing entity with no
caller-provided `created_at` restamps `created_at` with the later call's
time (`T2`), not the original `T1` — `add_entity` re-stamps whenever the
passed attribute dict lacks the key, including on merges. -/
theorem c5_counterexample :
    getA (nodeAttrs (add_entity (add_entity (initGraph "T0") "T1" "e" "person" [])
        "T2" "e" "person" []) "e") "created_at" = some "T2" ∧
    (some "T2" : Option String) ≠ some "T1" := by decide

/-- Claim C5 (amended): every `add_entity` call whose attribute map lacks
`created_at` — first creation or merge alike — stamps `created_at` with
that call's time, so the attribute records the most recent upsert, not the
first creation. -/
theorem c5_created_at_restamped (g : Graph) (now id ty : String) (a : Attrs)
    (ha : keysNodup a) (hc : getA a "created_at" = none) :
    getA (nodeAttrs (add_entity g now id ty a) id) "created_at" = some now := by
  have h := getA_add_entity_self g now id ty a ha "created_at" (by decide)
  rw [h, hc]
  simp

/-- Witness for C5 (amended) at a concrete merge. -/
theorem c5_witness :
    getA (nodeAttrs (add_entity (initGraph "T0") "T2" "e" "person" []) "e")
      "created_at" = some "T2" :=
  c5_created_at_restamped (initGraph "T0") "T2" "e" "person" []
    (by simp [keysNodup, keysOf]) rfl

/-- Counterexample to C6 as stated: two `add_memory_from_message` calls in
the same wall-clock second derive the same `memory_YYYYMMDD_HHMMSS`
identifier, so the second call merges into the first node and overwrites
its content instead of creating a distinct memory. -/
theorem c6_counterexample :
    (let t : Timestamp := ⟨"2024-01-01T12:00:00", "20240101_120000", "20240101"⟩
     let info : ExtractedInfo := ⟨"general", [], []⟩
     let g2 := add_memory_from_message
       (add_memory_from_message (initGraph "T0") t "first message" info)
       t "second message" info
     messageId t = "memory_20240101_120000" ∧
     countNode g2 "memory_20240101_120000" = 1 ∧
     getA (nodeAttrs g2 "memory_20240101_120000") "content" =
       some "second message") := by decide

/-- Claim C6 (amended): memory identifiers are second-granular — calls
whose creation instants render to distinct `%Y%m%d_%H%M%S` keys get
distinct identifiers, while two calls within the same second share one
identifier and the later merges over the earlier. -/
theorem c6_memory_id_granularity (t1 t2 : Timestamp) (h : t1.key ≠ t2.key) :
    messageId t1 ≠ messageId t2 := by
  intro hid
  apply h
  have hdata : ("memory_" ++ t1.key).data = ("memory_" ++ t2.key).data :=
    congrArg String.data hid
  rw [String.data_append, String.data_append] at hdata
  have hkey := List.append_cancel_left hdata
  cases t1k : t1.key
  cases t2k : t2.key
  rw [t1k, t2k] at hkey
  simp at hkey
  simp [t1k, t2k, hkey]

/-- Witness for C6 (amended). -/
theorem c6_witness :
    messageId ⟨"i1", "20240101_120000", "d"⟩ ≠
      messageId ⟨"i2", "20240101_120001", "d"⟩ :=
  c6_memory_id_granularity _ _ (by decide)

/-- Counterexample to C1 as stated: with `a2 = {type: zzz}` the claim
demands both that the final map hold `a2`'s value for `type` and that
`type = t`; the code forces `type` to the entity type `person`, so the
claim instance is false — the reserved `type` (and `created_at`) keys are
managed by the store, not merged from the caller. -/
theorem c1_counterexample :
    getA (nodeAttrs (add_entity (add_entity (initGraph "T0") "T1" "alice" "person" [])
        "T2" "alice" "person" [("type", "zzz")]) "alice") "type" = some "person" ∧
    (some "person" : Option String) ≠ some "zzz" := by decide

/-- Claim C1 (amended): back-to-back upserts of the same identifier merge
into exactly one node whose `type` is the entity type; for every key other
than the store-managed `type` and `created_at`, the final map holds `a2`'s
value where provided, else `a1`'s where provided, else the pre-existing
value. -/
theorem c1_upsert_merge (g : Graph) (n1 n2 id t : String) (a1 a2 : Attrs)
    (hg : (nodeKeys g.nodes).Nodup) (h1 : keysNodup a1) (h2 : keysNodup a2) :
    countNode (add_entity (add_entity g n1 id t a1) n2 id t a2) id = 1 ∧
    getA (nodeAttrs (add_entity (add_entity g n1 id t a1) n2 id t a2) id)
      "type" = some t ∧
    ∀ k, k ≠ "type" → k ≠ "created_at" →
      getA (nodeAttrs (add_entity (add_entity g n1 id t a1) n2 id t a2) id) k =
        match getA a2 k with
        | some v => some v
        | none =>
          match getA a1 k with
          | some v => some v
          | none => getA (nodeAttrs g id) k := by
  refine ⟨?_, ?_, ?_⟩
  · exact countNode_eq_one _ _
      (nodeKeysNodup_add_entity _ _ _ _ _ (nodeKeysNodup_add_entity _ _ _ _ _ hg))
      (hasNode_add_entity_self _ _ _ _ _)
  · exact getA_add_entity_type _ _ _ _ _ h2
  · intro k hk hkc
    rw [getA_add_entity_self _ _ _ _ _ h2 k hk]
    cases ha2 : getA a2 k with
    | some v => simp
    | none =>
      simp only [if_neg hkc]
      rw [getA_add_entity_self _ _ _ _ _ h1 k hk]
      cases ha1 : getA a1 k with
      | some v => simp
      | none => simp [hkc]

/-- Witness for C1 (amended): `{a:1}` then `{b:2}` yield one node holding
both keys. -/
theorem c1_witness :
    countNode (add_entity (add_entity (initGraph "T0") "T1" "alice" "person"
      [("a", "1")]) "T2" "alice" "person" [("b", "2")]) "alice" = 1 ∧
    getA (nodeAttrs (add_entity (add_entity (initGraph "T0") "T1" "alice" "person"
      [("a", "1")]) "T2" "alice" "person" [("b", "2")]) "alice") "a" = some "1" := by
  have h := c1_upsert_merge (initGraph "T0") "T1" "T2" "alice" "person"
    [("a", "1")] [("b", "2")] (by simp [nodeKeys, initGraph])
    (by simp [keysNodup, keysOf]) (by simp [keysNodup, keysOf])
  refine ⟨h.1, ?_⟩
  have h3 := h.2.2 "a" (by decide) (by decide)
  exact h3.trans (by decide)

/-! ### Claim C3: follow-up resolution -/

/-- Inert default used with `List.getD` when indexing the queue. -/
def dMem : MemoryItem := ⟨"", "", 0, false, 0⟩

theorem markFollowUps_cons (now : Int) (m : MemoryItem) (rest : List MemoryItem) :
    markFollowUps now (m :: rest) =
      if isDueMemory now m then
        ({ m with follow_up_needed := false } :: (markFollowUps now rest).1,
          ⟨m.keyword, m.content, fmtTime m.timestamp⟩ :: (markFollowUps now rest).2)
      else (m :: (markFollowUps now rest).1, (markFollowUps now rest).2) := rfl

theorem markFollowUps_length (now : Int) (l : List MemoryItem) :
    (markFollowUps now l).1.length = l.length := by
  induction l with
  | nil => rfl
  | cons m rest ih =>
    by_cases h : isDueMemory now m <;> simp [markFollowUps, h, ih]

theorem markFollowUps_getD (now : Int) (l : List MemoryItem) (j : Nat)
    (hj : j < l.length) :
    (markFollowUps now l).1.getD j dMem =
      (if isDueMemory now (l.getD j dMem) then
        { l.getD j dMem with follow_up_needed := false }
      else l.getD j dMem) := by
  induction l generalizing j with
  | nil => simp at hj
  | cons m rest ih =>
    cases j with
    | zero =>
      by_cases h : isDueMemory now m <;>
        simp [markFollowUps, h, List.getD_cons_zero]
    | succ j' =>
      have hj' : j' < rest.length := by simpa using hj
      rw [markFollowUps_cons]
      by_cases h : isDueMemory now m
      · simp only [if_pos h, List.getD_cons_succ]
        exact ih j' hj'
      · simp only [if_neg h, List.getD_cons_succ]
        exact ih j' hj'

theorem markFollowUps_first_due (now : Int) (l : List MemoryItem) (i : Nat)
    (hi : i < l.length) (hdue : isDueMemory now (l.getD i dMem) = true)
    (hfirst : ∀ j, j < i → isDueMemory now (l.getD j dMem) = false) :
    ∃ cs, (markFollowUps now l).2 =
      ⟨(l.getD i dMem).keyword, (l.getD i dMem).content,
        fmtTime (l.getD i dMem).timestamp⟩ :: cs := by
  induction l generalizing i with
  | nil => simp at hi
  | cons m rest ih =>
    cases i with
    | zero =>
      rw [List.getD_cons_zero] at hdue
      refine ⟨(markFollowUps now rest).2, ?_⟩
      simp [markFollowUps, hdue, List.getD_cons_zero]
    | succ i' =>
      have h0 : isDueMemory now m = false := by
        have := hfirst 0 (Nat.succ_pos _)
        simpa [List.getD_cons_zero] using this
      have hi' : i' < rest.length := by simpa using hi
      have hdue' : isDueMemory now (rest.getD i' dMem) = true := by
        simpa [List.getD_cons_succ] using hdue
      have hfirst' : ∀ j, j < i' → isDueMemory now (rest.getD j dMem) = false := by
        intro j hj
        have := hfirst (j + 1) (by omega)
        simpa [List.getD_cons_succ] using this
      obtain ⟨cs, hcs⟩ := ih i' hi' hdue' hfirst'
      exact ⟨cs, by simp [markFollowUps, h0, List.getD_cons_succ, hcs]⟩

theorem pyJoin_cons (sep x : String) (xs : List String) :
    ∃ r : String, pyJoin sep (x :: xs) = x ++ r := by
  cases xs with
  | nil => exact ⟨"", by simp [pyJoin, String.append_empty]⟩
  | cons y t =>
    exact ⟨sep ++ pyJoin sep (y :: t), by simp [pyJoin, String.append_assoc]⟩

theorem strContains_of_eq (s pre mid post : String)
    (h : s = pre ++ mid ++ post) : strContains s mid = true := by
  rw [h]
  exact strContains_sandwich pre mid post

theorem proactive_prompt_contains (now last_interaction : Int)
    (history : List Turn) (c : FollowCtx) (cs : List FollowCtx) :
    ∃ m ∈ buildProactiveMessages now last_interaction history (c :: cs),
      strContains m.content c.keyword = true ∧
      strContains m.content c.content = true := by
  obtain ⟨r, hr⟩ := pyJoin_cons "\n" (followUpLine c) (cs.map followUpLine)
  refine ⟨{ role := "system",
            content := followUpTaskHead ++ pyJoin "\n" ((c :: cs).map followUpLine)
              ++ followUpTaskTail },
    ?_, ?_, ?_⟩
  · simp [buildProactiveMessages]
  · apply strContains_of_eq _ (followUpTaskHead ++ "- [") c.keyword
      ("] " ++ c.content ++ " (mentioned at " ++ c.timestamp ++ ")" ++ (r ++ followUpTaskTail))
    rw [List.map_cons, hr]
    simp [followUpLine, String.append_assoc]
  · apply strContains_of_eq _ (followUpTaskHead ++ ("- [" ++ (c.keyword ++ "] ")))
      c.content
      (" (mentioned at " ++ c.timestamp ++ ")" ++ (r ++ followUpTaskTail))
    rw [List.map_cons, hr]
    simp [followUpLine, String.append_assoc]

theorem extract_preserves_existing (mems : List MemoryItem) (g : Graph)
    (now : Int) (t : Timestamp) (msg : String) :
    (extract_important_info mems g now t msg).1.take mems.length = mems := by
  unfold extract_important_info
  cases hfind : IMPORTANT_KEYWORDS.find? (fun k => strContains (lowerS msg) k) with
  | some kw => simp [List.take_left]
  | none => simp [List.take_length]

theorem generate_proactive_fst (client : List Msg → Except String String)
    (randIdx : Nat) (now last_interaction : Int) (history : List Turn)
    (mems : List MemoryItem) :
    (generate_proactive_message client randIdx now last_interaction history mems).1 =
      (markFollowUps now mems).1 := by
  unfold generate_proactive_message
  cases client (buildProactiveMessages now last_interaction history
      (markFollowUps now mems).2) with
  | ok r => rfl
  | error e => cases (markFollowUps now mems).2 <;> rfl

/-- Claim C3: when the queue holds a due entry with `follow_up_needed`,
`generate_proactive_message` clears the flag of the first due entry, and
the generation request it issues references that entry's keyword and
content; the flag only ever moves from true to false — the marking loop
never re-raises a cleared flag, and `extract_important_info` never touches
existing entries — so each item is resolved at most once over its
lifetime. -/
theorem c3_followup_resolution (client : List Msg → Except String String)
    (randIdx : Nat) (now last_interaction : Int) (history : List Turn)
    (mems : List MemoryItem) (i : Nat)
    (hi : i < mems.length)
    (hdue : isDueMemory now (mems.getD i dMem) = true)
    (hfirst : ∀ j, j < i → isDueMemory now (mems.getD j dMem) = false) :
    ((generate_proactive_message client randIdx now last_interaction history
        mems).1.getD i dMem).follow_up_needed = false ∧
    (∃ m ∈ proactiveRequest now last_interaction history mems,
      strContains m.content (mems.getD i dMem).keyword = true ∧
      strContains m.content (mems.getD i dMem).content = true) ∧
    (∀ j, j < mems.length → (mems.getD j dMem).follow_up_needed = false →
      ((generate_proactive_message client randIdx now last_interaction history
        mems).1.getD j dMem).follow_up_needed = false) ∧
    (generate_proactive_message client randIdx now last_interaction history
      mems).1.length = mems.length ∧
    (∀ (ms : List MemoryItem) (g : Graph) (n : Int) (t : Timestamp) (msg : String),
      (extract_important_info ms g n t msg).1.take ms.length = ms) := by
  refine ⟨?_, ?_, ?_, ?_, ?_⟩
  · rw [generate_proactive_fst, markFollowUps_getD now mems i hi, if_pos hdue]
  · obtain ⟨cs, hcs⟩ := markFollowUps_first_due now mems i hi hdue hfirst
    unfold proactiveRequest
    rw [hcs]
    exact proactive_prompt_contains now last_interaction history _ cs
  · intro j hj hfalse
    rw [generate_proactive_fst, markFollowUps_getD now mems j hj]
    have hnd : isDueMemory now (mems.getD j dMem) = false := by
      unfold isDueMemory
      rw [hfalse]
      rfl
    have hnd' : ¬(isDueMemory now (mems.getD j dMem) = true) := by
      rw [hnd]
      exact Bool.false_ne_true
    rw [if_neg hnd']
    exact hfalse
  · rw [generate_proactive_fst, markFollowUps_length]
  · exact extract_preserves_existing

/-- Witness for C3 at a concrete due queue entry. -/
theorem c3_witness :
    ((generate_proactive_message (fun _ => .error "x") 0 200 0 []
      [⟨"my meeting tomorrow", "meeting", 0, true, 50⟩]).1.getD 0 dMem).follow_up_needed
      = false :=
  (c3_followup_resolution (fun _ => .error "x") 0 200 0 []
    [⟨"my meeting tomorrow", "meeting", 0, true, 50⟩] 0 (by decide) (by decide)
    (fun j hj => absurd hj (Nat.not_lt_zero j))).1

/-! ### Claim C7: keyword retrieval -/

theorem scanMemories_eq_filter (q : String) (l : List (String × Attrs)) :
    scanMemories q l =
      (l.filter (fun p =>
        decide (getA p.2 "type" = some "memory") && memMatchesB q p.2)).map
        (fun p => memProj p.2) := by
  induction l with
  | nil => rfl
  | cons p rest ih =>
    obtain ⟨n, data⟩ := p
    by_cases h1 : getA data "type" = some "memory"
    · by_cases h2 : memMatchesB q data
      · simp [scanMemories, h1, h2, List.filter_cons, ih]
      · simp [scanMemories, h1, h2, List.filter_cons, ih]
    · simp [scanMemories, h1, List.filter_cons, ih]

theorem memMatchesB_iff (ql : String) (d : Attrs) :
    memMatchesB ql d = true ↔
      ∃ w ∈ pySplit ql,
        (strContains (lowerS ((getA d "content").getD "")) w = true ∨
         strContains (lowerS ((getA d "keyword").getD "")) w = true) := by
  simp [memMatchesB, List.any_eq_true, Bool.or_eq_true]

theorem relevant_ne_sentinel (r : String) :
    ("RELEVANT MEMORIES:" ++ r) ≠ "No previous context found." := by
  intro h
  have hd := congrArg String.data h
  rw [String.data_append] at hd
  have h1 : "RELEVANT MEMORIES:".data = 'R' :: "ELEVANT MEMORIES:".data := rfl
  have h2 : "No previous context found.".data =
      'N' :: "o previous context found.".data := rfl
  rw [h1, h2, List.cons_append] at hd
  simp at hd

/-- Claim C7: `get_context_for_query` includes a stored memory exactly when
some whitespace token of the lower-cased query occurs inside its content
or keyword (case-insensitive); matches are kept in node iteration order
with no ranking, truncated to the first `top_k`, and the sentinel
`No previous context found.` is returned precisely when the truncated
match list is empty (in particular whenever nothing matches). -/
theorem c7_context_query (g : Graph) (query_text : String) (top_k : Nat) :
    (get_context_for_query g query_text top_k = "No previous context found." ↔
      (scanMemories (lowerS query_text) g.nodes).take top_k = []) ∧
    (scanMemories (lowerS query_text) g.nodes =
      (g.nodes.filter (fun p =>
        decide (getA p.2 "type" = some "memory") &&
          memMatchesB (lowerS query_text) p.2)).map (fun p => memProj p.2)) ∧
    (∀ d : Attrs, memMatchesB (lowerS query_text) d = true ↔
      ∃ w ∈ pySplit (lowerS query_text),
        (strContains (lowerS ((getA d "content").getD "")) w = true ∨
         strContains (lowerS ((getA d "keyword").getD "")) w = true)) ∧
    ((scanMemories (lowerS query_text) g.nodes).take top_k ≠ [] →
      get_context_for_query g query_text top_k =
        pyJoin "\n" ("RELEVANT MEMORIES:" ::
          formatLines 1 ((scanMemories (lowerS query_text) g.nodes).take top_k))) := by
  refine ⟨?_, scanMemories_eq_filter _ _, fun d => memMatchesB_iff _ d, ?_⟩
  · unfold get_context_for_query
    by_cases he : (scanMemories (lowerS query_text) g.nodes).take top_k = []
    · have hemp : ((scanMemories (lowerS query_text) g.nodes).take top_k).isEmpty
          = true := List.isEmpty_iff.mpr he
      rw [if_pos hemp]
      exact ⟨fun _ => he, fun _ => rfl⟩
    · rw [if_neg (by simpa [List.isEmpty_iff] using he)]
      cases hc : (scanMemories (lowerS query_text) g.nodes).take top_k with
      | nil => exact absurd hc he
      | cons c t =>
        constructor
        · intro hcontra
          obtain ⟨r, hr⟩ := pyJoin_cons "\n" "RELEVANT MEMORIES:"
            (formatLines 1 (c :: t))
          rw [hr] at hcontra
          exact absurd hcontra (relevant_ne_sentinel r)
        · intro hcontra
          exact absurd hcontra (List.cons_ne_nil c t)
  · intro hne
    unfold get_context_for_query
    rw [if_neg (by simpa [List.isEmpty_iff] using hne)]

/-- Witness for C7: one matching memory is retrieved and formatted; the
sentinel is not returned. -/
theorem c7_witness :
    get_context_for_query
      { nodes := [("USER", [("type", "user")]),
                  ("memory_1", [("type", "memory"), ("content", "I love hiking"),
                                ("keyword", "trip"), ("timestamp", "T1")])],
        edges := [] } "Tell me about Hiking" 5 ≠ "No previous context found." := by
  intro hc
  have h := (c7_context_query
    { nodes := [("USER", [("type", "user")]),
                ("memory_1", [("type", "memory"), ("content", "I love hiking"),
                              ("keyword", "trip"), ("timestamp", "T1")])],
      edges := [] } "Tell me about Hiking" 5).1.mp hc
  exact absurd h (by decide)

/-! ### Claim C8: export/import round trip -/

theorem eraseKey_of_getA_none (a : Attrs) (k : String) (h : getA a k = none) :
    eraseKey a k = a := by
  induction a with
  | nil => rfl
  | cons p rest ih =>
    obtain ⟨k0, v0⟩ := p
    by_cases hk : k0 = k
    · simp [getA, hk] at h
    · simp only [getA, if_neg hk] at h
      simp [eraseKey, hk, ih h]

theorem eraseKey_dictInsert_self (a : Attrs) (k v : String)
    (h : getA a k = none) : eraseKey (dictInsert a k v) k = a := by
  induction a with
  | nil => simp [dictInsert, eraseKey]
  | cons p rest ih =>
    obtain ⟨k0, v0⟩ := p
    by_cases hk : k0 = k
    · simp [getA, hk] at h
    · simp only [getA, if_neg hk] at h
      simp [dictInsert, hk, eraseKey, ih h]

theorem eraseKey_dictInsert_ne (a : Attrs) (k v k' : String) (h : k' ≠ k) :
    eraseKey (dictInsert a k v) k' = dictInsert (eraseKey a k') k v := by
  have h' : ¬k = k' := fun hh => h hh.symm
  induction a with
  | nil => simp [dictInsert, eraseKey, h']
  | cons p rest ih =>
    obtain ⟨k0, v0⟩ := p
    by_cases h0 : k0 = k
    · subst h0
      simp [dictInsert, eraseKey, h']
    · by_cases h0' : k0 = k'
      · subst h0'
        simp [dictInsert, h0, eraseKey, ih]
      · simp [dictInsert, h0, eraseKey, h0', ih]

/-- Claim C8: `import_graph` applied to the document produced by
`export_graph` reproduces the graph exactly — same node count, same edge
count, identical attribute dicts on every node and edge — and does so
whatever graph was previously in memory (wholesale replacement).  The
hypotheses record that no attribute uses the reserved node-link keys
`id`/`source`/`target`; the program never stores such keys. -/
theorem c8_round_trip (g old : Graph)
    (hn : ∀ p ∈ g.nodes, getA p.2 "id" = none)
    (he : ∀ e ∈ g.edges, getA e.2.2 "source" = none ∧ getA e.2.2 "target" = none) :
    import_graph old (export_graph g) = g ∧
    (import_graph old (export_graph g)).nodes.length = g.nodes.length ∧
    (import_graph old (export_graph g)).edges.length = g.edges.length ∧
    (∀ p ∈ g.nodes, nodeAttrs (import_graph old (export_graph g)) p.1 = nodeAttrs g p.1) := by
  have hmain : import_graph old (export_graph g) = g := by
    cases g with
    | mk ns es =>
      unfold import_graph export_graph
      simp only [Graph.mk.injEq, List.map_map]
      constructor
      · have hf : ∀ p ∈ ns,
            ((getA (dictInsert p.2 "id" p.1) "id").getD "",
              eraseKey (dictInsert p.2 "id" p.1) "id") = id p := by
          intro p hp
          have h1 := hn p hp
          rw [getA_dictInsert_self, eraseKey_dictInsert_self _ _ _ h1]
          rfl
        exact (List.map_congr_left hf).trans (List.map_id ns)
      · have hf : ∀ e ∈ es,
            ((getA (dictInsert (dictInsert e.2.2 "source" e.1) "target" e.2.1)
                "source").getD "",
              (getA (dictInsert (dictInsert e.2.2 "source" e.1) "target" e.2.1)
                "target").getD "",
              eraseKey (eraseKey
                (dictInsert (dictInsert e.2.2 "source" e.1) "target" e.2.1)
                "source") "target") = id e := by
          intro e heMem
          obtain ⟨h1, h2⟩ := he e heMem
          rw [getA_dictInsert_self,
            getA_dictInsert_ne _ _ _ _ (by decide), getA_dictInsert_self,
            eraseKey_dictInsert_ne _ _ _ _ (by decide),
            eraseKey_dictInsert_self _ _ _ h1,
            eraseKey_dictInsert_self _ _ _ h2]
          rfl
        exact (List.map_congr_left hf).trans (List.map_id es)
  refine ⟨hmain, by rw [hmain], by rw [hmain], fun p _ => by rw [hmain]⟩

/-- Witness for C8 at a concrete two-node, one-edge graph. -/
theorem c8_witness :
    import_graph (initGraph "X") (export_graph
      { nodes := [("USER", [("type", "user")]), ("alice", [("type", "person")])],
        edges := [("USER", "alice", [("relation_type", "knows")])] }) =
      { nodes := [("USER", [("type", "user")]), ("alice", [("type", "person")])],
        edges := [("USER", "alice", [("relation_type", "knows")])] } :=
  (c8_round_trip
    { nodes := [("USER", [("type", "user")]), ("alice", [("type", "person")])],
      edges := [("USER", "alice", [("relation_type", "knows")])] }
    (initGraph "X") (by decide) (by decide)).1

/-- Witness for C4 at the spec scenario: threshold 2 minutes, 200 elapsed
seconds, empty queue. -/
theorem c4_witness : should_send_proactive_message 200 0 [] = true :=
  (c4_proactive_gate 200 0 []).1.mpr (by decide)

/-- Claim C2: adding a relationship between two absent identifiers
auto-creates both as `unknown`-typed nodes and adds the directed edge; and
every store operation — initialisation, `add_entity`, `add_relationship`,
`add_memory_from_message` — preserves the invariant that both endpoints of
every edge are present in the graph. -/
theorem nodeAttrs_addEdgeNX_of_has (g : Graph) (u v : String) (a : Attrs)
    (m : String) (hu : g.hasNode u = true) (hv : g.hasNode v = true) :
    nodeAttrs (addEdgeNX g u v a) m = nodeAttrs g m := by
  unfold nodeAttrs
  rw [nodes_addEdgeNX_of_has g u v a hu hv]

theorem hasEdge_addEdgeNX_self (g : Graph) (u v : String) (a : Attrs) :
    (addEdgeNX g u v a).hasEdge u v = true :=
  hasEdgeL_upsertEdge_self g.edges u v a

theorem ensureNode_of_hasNode (g : Graph) (now n : String)
    (h : g.hasNode n = true) : ensureNode g now n = g := by
  unfold ensureNode
  rw [if_pos h]

theorem ensureNode_of_not_hasNode (g : Graph) (now n : String)
    (h : g.hasNode n = false) :
    ensureNode g now n = add_entity g now n "unknown" [] := by
  unfold ensureNode
  rw [if_neg (by rw [h]; exact Bool.false_ne_true)]

theorem c2_no_dangling (g : Graph) (now x y r : String) (a : Attrs)
    (hx : g.hasNode x = false) (hy : g.hasNode y = false) :
    ((add_relationship g now x y r a).hasNode x = true ∧
     (add_relationship g now x y r a).hasNode y = true ∧
     getA (nodeAttrs (add_relationship g now x y r a) x) "type" = some "unknown" ∧
     getA (nodeAttrs (add_relationship g now x y r a) y) "type" = some "unknown" ∧
     (add_relationship g now x y r a).hasEdge x y = true) ∧
    (∀ n₀, edgesClosed (initGraph n₀)) ∧
    (∀ g₀ n₀ nm ty ats, edgesClosed g₀ → edgesClosed (add_entity g₀ n₀ nm ty ats)) ∧
    (∀ g₀ n₀ u v rel ats, edgesClosed g₀ →
      edgesClosed (add_relationship g₀ n₀ u v rel ats)) ∧
    (∀ g₀ t₀ msg info, edgesClosed g₀ →
      edgesClosed (add_memory_from_message g₀ t₀ msg info)) := by
  refine ⟨?_, edgesClosed_initGraph,
    fun g₀ n₀ nm ty ats h => edgesClosed_add_entity g₀ n₀ nm ty ats h,
    fun g₀ n₀ u v rel ats h => edgesClosed_add_relationship g₀ n₀ u v rel ats h,
    fun g₀ t₀ msg info h => edgesClosed_add_memory_from_message g₀ t₀ msg info h⟩
  have hkn : keysNodup ([] : Attrs) := by simp [keysNodup, keysOf]
  have hens1 : ensureNode g now x = add_entity g now x "unknown" [] :=
    ensureNode_of_not_hasNode g now x hx
  have hx1 : (ensureNode g now x).hasNode x = true := hasNode_ensureNode_self g now x
  unfold add_relationship
  by_cases hxy : y = x
  · subst hxy
    have hens2 : ensureNode (ensureNode g now y) now y = ensureNode g now y :=
      ensureNode_of_hasNode _ now y hx1
    rw [hens2]
    refine ⟨hasNode_addEdgeNX_mono _ _ _ _ _ hx1,
      hasNode_addEdgeNX_mono _ _ _ _ _ hx1, ?_, ?_, hasEdge_addEdgeNX_self _ _ _ _⟩
    · rw [nodeAttrs_addEdgeNX_of_has _ _ _ _ _ hx1 hx1, hens1]
      exact getA_add_entity_type _ _ _ _ _ hkn
    · rw [nodeAttrs_addEdgeNX_of_has _ _ _ _ _ hx1 hx1, hens1]
      exact getA_add_entity_type _ _ _ _ _ hkn
  · have hy1 : (ensureNode g now x).hasNode y = false := by
      rw [hens1, hasNode_add_entity_ne g now x "unknown" [] y hxy]
      exact hy
    have hens2 : ensureNode (ensureNode g now x) now y =
        add_entity (ensureNode g now x) now y "unknown" [] :=
      ensureNode_of_not_hasNode _ now y hy1
    have hx2 : (ensureNode (ensureNode g now x) now y).hasNode x = true := by
      rw [hens2]
      exact hasNode_add_entity_mono _ _ _ _ _ _ hx1
    have hy2 : (ensureNode (ensureNode g now x) now y).hasNode y = true := by
      rw [hens2]
      exact hasNode_add_entity_self _ _ _ _ _
    refine ⟨hasNode_addEdgeNX_mono _ _ _ _ _ hx2,
      hasNode_addEdgeNX_mono _ _ _ _ _ hy2, ?_, ?_, hasEdge_addEdgeNX_self _ _ _ _⟩
    · rw [nodeAttrs_addEdgeNX_of_has _ _ _ _ _ hx2 hy2, hens2,
        nodeAttrs_add_entity_ne _ _ _ _ _ x (fun hh => hxy hh.symm), hens1]
      exact getA_add_entity_type _ _ _ _ _ hkn
    · rw [nodeAttrs_addEdgeNX_of_has _ _ _ _ _ hx2 hy2, hens2]
      exact getA_add_entity_type _ _ _ _ _ hkn

/-- Witness for C2 at two fresh endpoints. -/
theorem c2_witness :
    (add_relationship (initGraph "T0") "T1" "a" "b" "knows" []).hasEdge "a" "b" = true :=
  ((c2_no_dangling (initGraph "T0") "T1" "a" "b" "knows" [] (by decide) (by decide)).1).2.2.2.2
